/-
Verification of the multi-branch maintenance-dashboard core.

The definitions below are shallow embeddings of the JavaScript source:
  - CostCodeService   (backend/server/costCodeService.js)
  - CacheService      (the in-memory TTL cache shipped with authMiddleware.js)
  - filterDataByPermissions (backend/server/authMiddleware.js)
  - DatabaseManager   (the dbManager variant with executeBranchQuery and the
    retry loop in queryAllBranches)
  - DataService._processRecords (dataService)

JavaScript specifics are modelled explicitly: nullable values become Option,
truthiness of nullable strings is spelled out, thrown exceptions become
Except, and Date.now timestamps become Nat milliseconds.  Permission fields
that the source stores as JSON text are modelled in their parsed list form
(the source parses them before use).  Floating-point amount fields and the
logging calls are not consulted by any property below and are not modelled.
-/
import Mathlib

set_option autoImplicit false
set_option maxRecDepth 4000

/-- JavaScript String.prototype.trim on the character list: drop whitespace
from both ends. -/
def jsTrim (s : String) : String :=
  String.mk (((s.toList.dropWhile Char.isWhitespace).reverse.dropWhile
    Char.isWhitespace).reverse)

/-- JavaScript String.prototype.toUpperCase, character by character (the
inputs of interest are ASCII). -/
def jsToUpper (s : String) : String :=
  String.mk (s.toList.map Char.toUpper)

/-- JavaScript String.prototype.startsWith. -/
def jsStartsWith (s pre : String) : Bool :=
  pre.toList.isPrefixOf s.toList

/-- JavaScript String.prototype.substring(n) — drop the first n
characters. -/
def jsSubstringFrom (s : String) (n : Nat) : String :=
  String.mk (s.toList.drop n)

namespace CostCodeService

/-- The four recognized branch prefixes, in source order. -/
def branchPrefixes : List String := ["PMB", "PTA", "QTN", "CPT"]

/-- extractBranchFromCode: scans the four branch prefixes (dash or space
separator) at the start of the trimmed, uppercased code; first match wins.
The source calls costCode.trim() without a null guard, so a missing code
throws there; this function takes the present-string case. -/
def extractBranchFromCode (costCode : String) : Option String :=
  let normalized := jsToUpper (jsTrim costCode)
  branchPrefixes.find? (fun br =>
    jsStartsWith normalized (br ++ "-") || jsStartsWith normalized (br ++ " "))

/-- The prefix-stripping step inside normalize: remove the first recognized
branch prefix written as PREFIX- or PREFIX followed by a space, then trim. -/
def stripBranchPfx (s : String) : String :=
  match branchPrefixes.find? (fun br =>
      jsStartsWith s (br ++ "-") || jsStartsWith s (br ++ " ")) with
  | some br => jsTrim (jsSubstringFrom s (br.toList.length + 1))
  | none => s

/-- The final replace step of normalize: keep only the characters matched by
the character class A-Z0-9, drop everything else. -/
def keepAlnum (s : String) : String :=
  String.mk (s.toList.filter (fun ch => ch.isUpper || ch.isDigit))

/-- normalize (comparison form): trim, uppercase, strip one branch prefix,
then drop every non-alphanumeric character.  The source returns the empty
string for falsy input (null, undefined or the empty string). -/
def normalize (costCode : String) : String :=
  if costCode == "" then ""
  else keepAlnum (stripBranchPfx (jsToUpper (jsTrim costCode)))

/-- The static category lookup table of getCategoryFromCode. -/
def categoryMap (tok : String) : Option String :=
  if tok == "MNT" then some "General Maintenance"
  else if tok == "ELEC" then some "Electrical"
  else if tok == "PLUMB" then some "Plumbing"
  else if tok == "HVAC" then some "HVAC"
  else if tok == "FLOOR" then some "Flooring"
  else if tok == "ROOF" then some "Roofing"
  else none

/-- JavaScript split and index 0: the first element of s.split(sep) is the
part of s that stands before the first occurrence of the separator, or all
of s when the separator does not occur. -/
def splitHead (s : String) : String :=
  String.mk (s.toList.takeWhile (fun ch => ch != '-'))

/-- getCategoryFromCode: normalize, split on the dash, take the first part,
look it up in the static table, default to Other. -/
def getCategoryFromCode (costCode : String) : String :=
  let normalized := normalize costCode
  let tok := splitHead normalized
  (categoryMap tok).getD "Other"

/-- The prefix token named by the specification: the part of the normalized
code that stands before the first dash separator. -/
def prefixToken (costCode : String) : String :=
  splitHead (normalize costCode)

/-- The prefix tokens the specification lists as known. -/
def knownTokens : List String := ["MNT", "ELEC", "PLUMB", "HVAC", "FLOOR", "ROOF"]

end CostCodeService

namespace CacheService

/-- One stored cache entry: value, absolute expiry timestamp and creation
timestamp, all times in milliseconds as produced by Date.now. -/
structure CacheEntry (α : Type) where
  value : α
  expiresAt : Nat
  createdAt : Nat
deriving Repr, DecidableEq

/-- The cache map, modelled as an insertion-ordered association list exactly
as a JavaScript Map behaves for string keys. -/
abbrev Cache (α : Type) : Type := List (String × CacheEntry α)

/-- Lookup of the raw entry stored under a key. -/
def lookupEntry {α : Type} (c : Cache α) (key : String) : Option (CacheEntry α) :=
  (c.find? (fun p => p.1 == key)).map (fun p => p.2)

/-- get: absent key is a miss; an entry whose (truthy) expiry lies strictly
in the past is deleted and reported as a miss; otherwise the value is
returned.  The returned pair carries the possibly-updated map. -/
def get {α : Type} (c : Cache α) (key : String) (now : Nat) : Option α × Cache α :=
  match c.find? (fun p => p.1 == key) with
  | none => (none, c)
  | some p =>
    if p.2.expiresAt != 0 && decide (p.2.expiresAt < now) then
      (none, c.filter (fun q => q.1 != key))
    else
      (some p.2.value, c)

/-- set: overwrite the entry in place when the key exists (a JavaScript Map
keeps the original position), append otherwise; expiry is now plus the TTL
converted from seconds to milliseconds. -/
def set {α : Type} (c : Cache α) (key : String) (value : α) (ttlSeconds now : Nat) : Cache α :=
  let e : CacheEntry α := ⟨value, now + ttlSeconds * 1000, now⟩
  if c.any (fun p => p.1 == key) then
    c.map (fun p => if p.1 == key then (key, e) else p)
  else
    c ++ [(key, e)]

end CacheService

/-- A merged purchase record as produced by record processing and consumed
by the permission filter.  Fields the source may leave undefined are
Options. -/
structure PRecord where
  costCode : Option String
  group : Option String
  branch : String
  branchName : String
  sourceDatabase : String
  category : String
  status : String
deriving Repr, DecidableEq

/-- The authenticated user object as consumed by filterDataByPermissions,
with the permission fields in parsed form. -/
structure User where
  role : String
  branch : Option String
  assignedGroups : Option (List String)
  assignedCostCodes : Option (List String)
deriving Repr, DecidableEq

/-- JavaScript array.includes applied to a possibly-undefined member: an
absent field is never contained. -/
def optIncludes (l : List String) : Option String → Bool
  | none => false
  | some s => l.contains s

/-- The branch restriction step of filterDataByPermissions: applied whenever
user.branch is truthy (neither null nor empty) and differs from ALL. -/
def branchRestrict (data : List PRecord) (user : User) : List PRecord :=
  match user.branch with
  | none => data
  | some b =>
    if b != "" && b != "ALL" then data.filter (fun item => item.branch == b)
    else data

/-- hasGroupRestrictions: the parsed assigned-groups value is present and
non-empty. -/
def hasGroupRestrictions (user : User) : Bool :=
  match user.assignedGroups with
  | some l => decide (0 < l.length)
  | none => false

/-- hasCodeRestrictions: the parsed assigned-cost-codes value is an array
and non-empty. -/
def hasCodeRestrictions (user : User) : Bool :=
  match user.assignedCostCodes with
  | some l => decide (0 < l.length)
  | none => false

/-- The per-record predicate of the permission filter: member of an assigned
group, or exact string equality with an assigned cost code. -/
def permissionPred (user : User) (item : PRecord) : Bool :=
  (hasGroupRestrictions user && optIncludes (user.assignedGroups.getD []) item.group) ||
  (hasCodeRestrictions user && optIncludes (user.assignedCostCodes.getD []) item.costCode)

/-- filterDataByPermissions: branch restriction for every role; then, for
non-admins, the group-or-cost-code filter when either restriction is
present, the explicit empty cost-code array denying everything, and no
further filtering otherwise. -/
def filterDataByPermissions (data : List PRecord) (user : User) : List PRecord :=
  let filteredData := branchRestrict data user
  if user.role != "ADMIN" then
    if hasGroupRestrictions user || hasCodeRestrictions user then
      filteredData.filter (permissionPred user)
    else if user.assignedCostCodes == some ([] : List String) then
      []
    else
      filteredData
  else
    filteredData

namespace DatabaseManager

/-- The configured branch order. -/
def branchOrder : List String := ["PMB", "PTA", "QTN", "CPT"]

/-- One per-branch query outcome as returned by executeBranchQuery.  The
attempt field records which attempt produced the stored entry; the data and
error message the source stores are determined by that attempt. -/
structure QueryResult where
  branch : String
  success : Bool
  attempt : Nat
deriving Repr, DecidableEq

/-- The environment of a queryAllBranches run: for each branch name and
attempt number, whether that executeBranchQuery call succeeds. -/
abbrev Outcome := String → Nat → Bool

/-- Number of executeBranchQuery calls already issued for a branch within
the current orchestration, read off the call log. -/
def attemptCount (calls : List (Nat × String)) (b : String) : Nat :=
  (calls.filter (fun e => e.2 == b)).length

/-- One executeBranchQuery call: the attempt number is one more than the
number of earlier calls for the branch, and the call is appended to the log
tagged with the round it belongs to (round 0 is the first pass). -/
def executeBranchQuery (oc : Outcome) (calls : List (Nat × String)) (round : Nat)
    (b : String) : QueryResult × List (Nat × String) :=
  let n := attemptCount calls b + 1
  (⟨b, oc b n, n⟩, calls ++ [(round, b)])

/-- In-place replacement of the first result entry carrying the given
branch, as results[results.findIndex(...)] = retryResult does. -/
def replaceResult (results : List QueryResult) (b : String) (r : QueryResult) :
    List QueryResult :=
  match results with
  | [] => []
  | x :: xs => if x.branch == b then r :: xs else x :: replaceResult xs b r

/-- One retry round of queryAllBranches.  The source iterates the mutable
failedBranches array with for..of and splices the current element out on a
successful retry; the JavaScript array iterator keeps its numeric index, so
after a splice the element that moved into the vacated slot is skipped.
The index i below is that iterator index; fuel only bounds the recursion
and is chosen large enough never to run out. -/
def retryRound (oc : Outcome) (round : Nat) :
    Nat → List QueryResult → List String → List (Nat × String) → Nat →
    List QueryResult × List String × List (Nat × String)
  | 0, results, failed, calls, _ => (results, failed, calls)
  | fuel + 1, results, failed, calls, i =>
    if h : i < failed.length then
      let b := failed.get ⟨i, h⟩
      let step := executeBranchQuery oc calls round b
      if step.1.success then
        retryRound oc round fuel (replaceResult results b step.1)
          (failed.eraseIdx i) step.2 (i + 1)
      else
        retryRound oc round fuel results failed step.2 (i + 1)
    else
      (results, failed, calls)

/-- Full state returned by the queryAllBranches model: the result array,
the final failedBranches array, the log of executeBranchQuery calls with
their round, and the backoff delays awaited (in milliseconds). -/
structure OrchTrace where
  results : List QueryResult
  failedBranches : List String
  calls : List (Nat × String)
  delays : List Nat
deriving Repr, DecidableEq

/-- queryAllBranches: first pass over every configured branch (issued
concurrently in the source; per-branch attempt numbering and the result
order are as modelled), then up to two retry rounds over the branches still
marked failed, each preceded by a single backoff delay of 500ms times
2^(round-1), breaking early once no failures remain. -/
def queryAllBranches (oc : Outcome) : OrchTrace :=
  let init := branchOrder.foldl
    (fun (acc : List QueryResult × List (Nat × String)) b =>
      let step := executeBranchQuery oc acc.2 0 b
      (acc.1 ++ [step.1], step.2))
    ([], [])
  let results := init.1
  let calls := init.2
  let failed := (results.filter (fun r => !r.success)).map (fun r => r.branch)
  if 0 < failed.length then
    let round1 := retryRound oc 1 failed.length results failed calls 0
    if round1.2.1.length = 0 then
      ⟨round1.1, round1.2.1, round1.2.2, [500 * 2 ^ (1 - 1)]⟩
    else
      let round2 := retryRound oc 2 round1.2.1.length round1.1 round1.2.1 round1.2.2 0
      ⟨round2.1, round2.2.1, round2.2.2, [500 * 2 ^ (1 - 1), 500 * 2 ^ (2 - 1)]⟩
  else
    ⟨results, failed, calls, []⟩

/-- A persistent outcome environment: each branch either always succeeds or
always fails, selected by one flag per configured branch. -/
def persistentOutcome (p q r s : Bool) : Outcome := fun b _ =>
  if b == "PMB" then p else if b == "PTA" then q else if b == "QTN" then r else s

/-- The partial-recovery environment: QTN and CPT always succeed, PMB and
PTA fail on their first attempt and succeed from the second attempt on. -/
def outcomePartialRecovery : Outcome := fun b n =>
  if b == "QTN" || b == "CPT" then true else decide (2 ≤ n)

/-- Connection bookkeeping for one executeBranchQuery call: whether the
isolated connection was successfully opened, and whether it was closed
before the call returned. -/
structure ConnState where
  opened : Bool
  closed : Bool
deriving Repr, DecidableEq

/-- The success/failure envelope of executeBranchQuery together with the
error message slot. -/
structure ExecEnvelope where
  branch : String
  success : Bool
  error : Option String
deriving Repr, DecidableEq

/-- executeBranchQuery with the connection lifecycle made explicit.  The
source wraps connect, parameter binding, query and close in one try block;
the catch block returns the failure envelope directly.  connectOk tells
whether connection.connect() succeeds, queryOk whether request.query(...)
succeeds. -/
def executeBranchQueryConn (b : String) (connectOk queryOk : Bool) :
    ExecEnvelope × ConnState :=
  if connectOk then
    if queryOk then
      (⟨b, true, none⟩, ⟨true, true⟩)
    else
      (⟨b, false, some "query failed"⟩, ⟨true, false⟩)
  else
    (⟨b, false, some "connect failed"⟩, ⟨false, false⟩)

end DatabaseManager

namespace DataService

/-- One raw row as consumed by record processing; only the fields the
processing logic branches on are modelled. -/
structure RawRecord where
  costCode : Option String
  group : Option String
deriving Repr, DecidableEq

/-- One per-branch envelope handed to record processing. -/
structure BranchResult where
  branch : String
  success : Bool
  data : List RawRecord
deriving Repr, DecidableEq

/-- The branch code to display name map used by record processing. -/
def branchMap (b : String) : Option String :=
  if b == "PMB" then some "Pietermaritzburg"
  else if b == "PTA" then some "Pretoria"
  else if b == "QTN" then some "Queenstown"
  else if b == "CPT" then some "Cape Town"
  else none

/-- Processing of one raw row fetched from srcBranch.  The source calls
costCodeService.extractBranchFromCode(record.costCode), which invokes
trim() on the code without a null guard: a missing cost code therefore
throws a TypeError that propagates out of processing. -/
def processRecord (srcBranch : String) (r : RawRecord) : Except String PRecord :=
  match r.costCode with
  | none => Except.error "TypeError"
  | some c =>
    let ownedByBranch := (CostCodeService.extractBranchFromCode c).getD srcBranch
    Except.ok
      { costCode := some c
        group := r.group
        branch := ownedByBranch
        branchName := (branchMap ownedByBranch).getD ownedByBranch
        sourceDatabase := srcBranch
        category :=
          match r.group with
          | some g => if g == "" then "Uncategorized" else g
          | none => "Uncategorized"
        status := "Completed" }

/-- processRecords: concatenates the processed rows of every successful
branch envelope, skipping failed ones; a thrown TypeError aborts the whole
call. -/
def processRecords (results : List BranchResult) : Except String (List PRecord) :=
  results.foldlM
    (fun acc res =>
      if res.success then do
        let ps ← res.data.mapM (processRecord res.branch)
        pure (acc ++ ps)
      else
        pure acc)
    []

end DataService

/-- Helper: one restriction clause of the permission predicate holds exactly
when the record field is present and contained in the assigned list. -/
theorem restrictionClause_iff (o : Option (List String)) (x : Option String) :
    (((match o with
        | some l => decide (0 < l.length)
        | none => false) : Bool) && optIncludes (o.getD []) x) = true ↔
      ∃ s, x = some s ∧ s ∈ o.getD [] := by
  cases o with
  | none => cases x <;> simp [optIncludes]
  | some l =>
    cases x with
    | none => simp [optIncludes]
    | some s =>
      simp only [Option.getD_some, optIncludes, Bool.and_eq_true, decide_eq_true_eq,
        List.elem_iff]
      constructor
      · rintro ⟨-, h⟩
        exact ⟨s, rfl, h⟩
      · rintro ⟨s2, hs2, hmem⟩
        cases hs2
        exact ⟨List.length_pos.mpr (List.ne_nil_of_mem hmem), hmem⟩

/-- Helper: the permission predicate is the OR of the two restriction
clauses, each phrased as list membership. -/
theorem permissionPred_iff (user : User) (item : PRecord) :
    permissionPred user item = true ↔
      ((∃ g, item.group = some g ∧ g ∈ user.assignedGroups.getD []) ∨
       (∃ c, item.costCode = some c ∧ c ∈ user.assignedCostCodes.getD [])) := by
  have h1 := restrictionClause_iff user.assignedGroups item.group
  have h2 := restrictionClause_iff user.assignedCostCodes item.costCode
  unfold permissionPred hasGroupRestrictions hasCodeRestrictions
  rw [Bool.or_eq_true]
  exact or_congr h1 h2

/-- Helper: with neither assigned groups nor assigned cost codes configured,
the filter reduces to the branch restriction alone, for every role. -/
theorem filter_no_restrictions (data : List PRecord) (u : User)
    (hg : u.assignedGroups = none) (ha : u.assignedCostCodes = none) :
    filterDataByPermissions data u = branchRestrict data u := by
  have h1 : hasGroupRestrictions u = false := by simp [hasGroupRestrictions, hg]
  have h2 : hasCodeRestrictions u = false := by simp [hasCodeRestrictions, ha]
  by_cases hr : (u.role != "ADMIN") = true
  · simp [filterDataByPermissions, hr, h1, h2, ha]
  · have hro : u.role = "ADMIN" := by simpa [bne_iff_ne] using hr
    simp [filterDataByPermissions, hro]

/-- C1: for a non-admin with a non-empty assigned-groups list or a
non-empty assigned cost-code array, filterDataByPermissions keeps a record
after the branch restriction exactly when its group is in the assigned
groups or its cost code is exactly string-equal to an assigned code — an OR
across the two restriction types. -/
theorem c1_permission_filter_or_semantics (data : List PRecord) (user : User) (r : PRecord)
    (hrole : user.role ≠ "ADMIN")
    (hres : (∃ l, user.assignedGroups = some l ∧ l ≠ []) ∨
            (∃ l, user.assignedCostCodes = some l ∧ l ≠ [])) :
    r ∈ filterDataByPermissions data user ↔
      r ∈ branchRestrict data user ∧
        ((∃ g, r.group = some g ∧ g ∈ user.assignedGroups.getD []) ∨
         (∃ c, r.costCode = some c ∧ c ∈ user.assignedCostCodes.getD [])) := by
  have hb : (user.role != "ADMIN") = true := by simp [bne_iff_ne, hrole]
  have hres' : (hasGroupRestrictions user || hasCodeRestrictions user) = true := by
    rcases hres with ⟨l, hl, hne⟩ | ⟨l, hl, hne⟩
    · have : hasGroupRestrictions user = true := by
        simp [hasGroupRestrictions, hl, List.length_pos.mpr hne]
      simp [this]
    · have : hasCodeRestrictions user = true := by
        simp [hasCodeRestrictions, hl, List.length_pos.mpr hne]
      simp [this]
  unfold filterDataByPermissions
  simp only [hb, hres', if_true]
  rw [List.mem_filter]
  exact and_congr_right fun _ => permissionPred_iff user r

/-- Witness for C1: with assignedGroups Electrical and assignedCostCodes
PMB-MNT-001, a record matching only the group condition and one matching
only the cost-code condition are both retained. -/
theorem c1_permission_filter_or_semantics_witness :
    (let u : User := ⟨"User", none, some ["Electrical"], some ["PMB-MNT-001"]⟩
     let rG : PRecord :=
       ⟨some "QTN-ELEC-009", some "Electrical", "QTN", "Queenstown", "QTN", "Electrical", "Completed"⟩
     let rC : PRecord :=
       ⟨some "PMB-MNT-001", some "Plumbing", "PMB", "Pietermaritzburg", "PMB", "Plumbing", "Completed"⟩
     ("User" : String) ≠ "ADMIN" ∧
       (rG ∈ filterDataByPermissions [rG, rC] u ↔
         rG ∈ branchRestrict [rG, rC] u ∧
           ((∃ g, rG.group = some g ∧ g ∈ u.assignedGroups.getD []) ∨
            (∃ c, rG.costCode = some c ∧ c ∈ u.assignedCostCodes.getD []))) ∧
       rG ∈ filterDataByPermissions [rG, rC] u ∧
       rC ∈ filterDataByPermissions [rG, rC] u) := by
  refine ⟨by decide, c1_permission_filter_or_semantics _ _ _ (by decide)
    (Or.inl ⟨["Electrical"], rfl, by decide⟩), ?_, ?_⟩ <;> decide

/-- C2: a non-admin whose assignedCostCodes is the explicit empty array and
whose assigned groups are absent or empty receives the empty list, whatever
the records are. -/
theorem c2_explicit_deny_all (data : List PRecord) (user : User)
    (hrole : user.role ≠ "ADMIN")
    (hcodes : user.assignedCostCodes = some [])
    (hgroups : user.assignedGroups = none ∨ user.assignedGroups = some []) :
    filterDataByPermissions data user = [] := by
  have hb : (user.role != "ADMIN") = true := by simp [bne_iff_ne, hrole]
  have hg : hasGroupRestrictions user = false := by
    rcases hgroups with h | h <;> simp [hasGroupRestrictions, h]
  have hc : hasCodeRestrictions user = false := by simp [hasCodeRestrictions, hcodes]
  simp [filterDataByPermissions, hb, hg, hc, hcodes]

/-- Witness for C2: a user with empty assigned codes and null groups sees
zero records. -/
theorem c2_explicit_deny_all_witness :
    ("User" : String) ≠ "ADMIN" ∧
    filterDataByPermissions
      [⟨some "PMB-MNT-001", some "Electrical", "PMB", "Pietermaritzburg", "PMB",
        "Electrical", "Completed"⟩]
      ⟨"User", none, none, some []⟩ = [] :=
  ⟨by decide, c2_explicit_deny_all _ _ (by decide) rfl (Or.inl rfl)⟩

/-- C3: an admin with a specific branch other than ALL sees exactly the
records of that branch, with no cost-code or group filtering; an admin with
branch ALL receives the input unchanged. -/
theorem c3_admin_branch_scoping (data : List PRecord) (user : User) (b : String)
    (hrole : user.role = "ADMIN") :
    (user.branch = some b → b ≠ "ALL" → b ≠ "" →
      filterDataByPermissions data user = data.filter (fun item => item.branch == b)) ∧
    (user.branch = some "ALL" → filterDataByPermissions data user = data) := by
  have hb : (user.role != "ADMIN") = false := by simp [bne, hrole]
  constructor
  · intro h1 h2 h3
    simp [filterDataByPermissions, hb, branchRestrict, h1, bne_iff_ne, h2, h3]
  · intro h1
    simp [filterDataByPermissions, hb, branchRestrict, h1]

/-- Witness for C3: an admin restricted to PMB sees only the PMB record
even though the other record matches their assigned cost codes; an ALL
admin variant is covered by the second conjunct at a concrete input. -/
theorem c3_admin_branch_scoping_witness :
    (let u : User := ⟨"ADMIN", some "PMB", none, some ["QTN-ELEC-009"]⟩
     let rP : PRecord :=
       ⟨some "PMB-MNT-001", some "Plumbing", "PMB", "Pietermaritzburg", "PMB", "Plumbing", "Completed"⟩
     let rQ : PRecord :=
       ⟨some "QTN-ELEC-009", some "Electrical", "QTN", "Queenstown", "QTN", "Electrical", "Completed"⟩
     ("ADMIN" : String) = "ADMIN" ∧
       (u.branch = some "PMB" → ("PMB" : String) ≠ "ALL" → ("PMB" : String) ≠ "" →
         filterDataByPermissions [rP, rQ] u = [rP, rQ].filter (fun item => item.branch == "PMB")) ∧
       filterDataByPermissions [rP, rQ] u = [rP]) := by
  refine ⟨rfl, (c3_admin_branch_scoping _ _ _ rfl).1, ?_⟩
  decide

/-- Helper: set on a list whose head does not carry the key is set on the
tail, with the head kept in front. -/
theorem cache_set_cons (p : String × CacheService.CacheEntry Nat)
    (rest : CacheService.Cache Nat) (k : String) (v : Nat) (ttl now : Nat)
    (hpk : (p.1 == k) = false) :
    CacheService.set (p :: rest) k v ttl now = p :: CacheService.set rest k v ttl now := by
  have hne : p.1 ≠ k := by simpa using hpk
  by_cases hr : rest.any (fun q => q.1 == k) = true
  · simp [CacheService.set, List.any_cons, hpk, hne, hr]
  · simp [CacheService.set, List.any_cons, hpk, hne, hr]

/-- Helper: after set, the entry found under the key is the one just
written. -/
theorem cache_find_set (c : CacheService.Cache Nat) (k : String) (v : Nat) (ttl now : Nat) :
    (CacheService.set c k v ttl now).find? (fun p => p.1 == k)
      = some (k, ⟨v, now + ttl * 1000, now⟩) := by
  induction c with
  | nil => simp [CacheService.set]
  | cons p rest ih =>
    by_cases hpk : (p.1 == k) = true
    · have hset : CacheService.set (p :: rest) k v ttl now
          = (k, ⟨v, now + ttl * 1000, now⟩) ::
            rest.map (fun q =>
              if q.1 == k then (k, ⟨v, now + ttl * 1000, now⟩) else q) := by
        simp [CacheService.set, List.any_cons, hpk, by simpa using hpk]
      rw [hset, List.find?_cons_of_pos _ (by simp)]
    · rw [cache_set_cons p rest k v ttl now (by simpa using hpk)]
      rw [List.find?_cons_of_neg _ (by simpa using hpk)]
      exact ih

/-- C9: get misses exactly when the key is absent or the stored expiry has
passed, an expired entry is deleted lazily by the read, set overwrites the
entry with expiry now plus the TTL in milliseconds, and after set a get at
any time strictly before the expiry returns the stored value. -/
theorem c9_cache_ttl_contract (c : CacheService.Cache Nat) (k : String) (v : Nat)
    (ttl now t : Nat)
    (hwf : ∀ e, CacheService.lookupEntry c k = some e → 0 < e.expiresAt) :
    ((CacheService.get c k now).1 = none ↔
      CacheService.lookupEntry c k = none ∨
      ∃ e, CacheService.lookupEntry c k = some e ∧ e.expiresAt < now) ∧
    (∀ e, CacheService.lookupEntry c k = some e → e.expiresAt < now →
      (CacheService.get c k now).2 = c.filter (fun q => q.1 != k)) ∧
    (CacheService.lookupEntry (CacheService.set c k v ttl now) k
      = some ⟨v, now + ttl * 1000, now⟩) ∧
    (t < now + ttl * 1000 →
      (CacheService.get (CacheService.set c k v ttl now) k t).1 = some v) := by
  refine ⟨?_, ?_, ?_, ?_⟩
  · cases hf : c.find? (fun p => p.1 == k) with
    | none => simp [CacheService.get, CacheService.lookupEntry, hf]
    | some p =>
      have hp : p.2.expiresAt ≠ 0 :=
        Nat.pos_iff_ne_zero.mp (hwf p.2 (by simp [CacheService.lookupEntry, hf]))
      by_cases hexp : p.2.expiresAt < now
      · simp [CacheService.get, CacheService.lookupEntry, hf, hexp, hp]
      · simp [CacheService.get, CacheService.lookupEntry, hf, hexp]
  · intro e he hexp
    have hf : ∃ p, c.find? (fun q => q.1 == k) = some p ∧ p.2 = e := by
      cases hf : c.find? (fun q => q.1 == k) with
      | none => simp [CacheService.lookupEntry, hf] at he
      | some p =>
        refine ⟨p, rfl, ?_⟩
        simpa [CacheService.lookupEntry, hf] using he
    obtain ⟨p, hfp, hpe⟩ := hf
    have hp : p.2.expiresAt ≠ 0 :=
      Nat.pos_iff_ne_zero.mp (hwf p.2 (by simp [CacheService.lookupEntry, hfp]))
    rw [hpe] at hp
    simp [CacheService.get, hfp, hpe, hexp, hp]
  · simp [CacheService.lookupEntry, cache_find_set c k v ttl now]
  · intro ht
    have hnot : ¬ (now + ttl * 1000 < t) := by omega
    simp [CacheService.get, cache_find_set c k v ttl now, hnot]

/-- Witness for C9: on the empty cache, a value set with a one-second TTL
at time 1000 is returned by a get at time 1999. -/
theorem c9_cache_ttl_contract_witness :
    (∀ e, CacheService.lookupEntry ([] : CacheService.Cache Nat) "records:" = some e →
      0 < e.expiresAt) ∧
    (CacheService.lookupEntry
      (CacheService.set ([] : CacheService.Cache Nat) "records:" 7 1 1000) "records:"
      = some ⟨7, 1000 + 1 * 1000, 1000⟩) ∧
    ((1999 : Nat) < 1000 + 1 * 1000 →
      (CacheService.get
        (CacheService.set ([] : CacheService.Cache Nat) "records:" 7 1 1000) "records:" 1999).1
        = some 7) := by
  have h := c9_cache_ttl_contract [] "records:" 7 1 1000 1999
    (by intro e he; simp [CacheService.lookupEntry] at he)
  exact ⟨by intro e he; simp [CacheService.lookupEntry] at he, h.2.2.1, h.2.2.2⟩

/-- C10: a cost code whose prefix token — the part of the normalized form
standing before the first separator — is one of the known tokens maps to the
fixed category of the static lookup table, and a code with an unknown
prefix token maps to Other. -/
theorem c10_category_from_prefix_token (code : String) :
    (∀ cat : String,
      (CostCodeService.prefixToken code, cat) ∈
        [("MNT", "General Maintenance"), ("ELEC", "Electrical"),
         ("PLUMB", "Plumbing"), ("HVAC", "HVAC"),
         ("FLOOR", "Flooring"), ("ROOF", "Roofing")] →
      CostCodeService.getCategoryFromCode code = cat) ∧
    (CostCodeService.prefixToken code ∉ CostCodeService.knownTokens →
      CostCodeService.getCategoryFromCode code = "Other") := by
  have key : CostCodeService.getCategoryFromCode code
      = (CostCodeService.categoryMap (CostCodeService.prefixToken code)).getD "Other" := rfl
  constructor
  · intro cat hmem
    rw [key]
    simp only [List.mem_cons, List.not_mem_nil, or_false, Prod.mk.injEq] at hmem
    rcases hmem with ⟨h1, h2⟩ | ⟨h1, h2⟩ | ⟨h1, h2⟩ | ⟨h1, h2⟩ | ⟨h1, h2⟩ | ⟨h1, h2⟩ <;>
      subst h2 <;> rw [h1] <;> rfl
  · intro hmem
    rw [key]
    simp only [CostCodeService.knownTokens, List.mem_cons, List.not_mem_nil, or_false,
      not_or] at hmem
    obtain ⟨h1, h2, h3, h4, h5, h6⟩ := hmem
    simp [CostCodeService.categoryMap, h1, h2, h3, h4, h5, h6]

/-- Witness for C10: PMB-MNT normalizes to MNT, a known token, and is
categorized as General Maintenance; MNT-001 normalizes to MNT001, an
unknown token, and is categorized as Other. -/
theorem c10_category_from_prefix_token_witness :
    ((CostCodeService.prefixToken "PMB-MNT", "General Maintenance") ∈
      [("MNT", "General Maintenance"), ("ELEC", "Electrical"),
       ("PLUMB", "Plumbing"), ("HVAC", "HVAC"),
       ("FLOOR", "Flooring"), ("ROOF", "Roofing")] ∧
     CostCodeService.getCategoryFromCode "PMB-MNT" = "General Maintenance") ∧
    (CostCodeService.prefixToken "MNT-001" ∉ CostCodeService.knownTokens ∧
     CostCodeService.getCategoryFromCode "MNT-001" = "Other") :=
  ⟨⟨by decide, (c10_category_from_prefix_token "PMB-MNT").1 "General Maintenance" (by decide)⟩,
   ⟨by decide, (c10_category_from_prefix_token "MNT-001").2 (by decide)⟩⟩

/-- C4: under a persistent environment (each branch either always fails or
always succeeds), queryAllBranches issues exactly three executeBranchQuery
calls for every persistently failing branch and exactly one for every
succeeding branch, and the result array lists one entry per branch in the
configured order PMB, PTA, QTN, CPT. -/
theorem c4_retry_attempt_bound (p q r s : Bool) :
    (DatabaseManager.queryAllBranches
        (DatabaseManager.persistentOutcome p q r s)).results.map (fun x => x.branch)
      = DatabaseManager.branchOrder ∧
    ∀ b ∈ DatabaseManager.branchOrder,
      DatabaseManager.attemptCount
          (DatabaseManager.queryAllBranches (DatabaseManager.persistentOutcome p q r s)).calls b
        = if DatabaseManager.persistentOutcome p q r s b 1 then 1 else 3 := by
  cases p <;> cases q <;> cases r <;> cases s <;> decide

/-- Witness for C4: with PMB and PTA always failing and QTN and CPT always
succeeding, the bound holds at that concrete environment. -/
theorem c4_retry_attempt_bound_witness :
    (DatabaseManager.queryAllBranches
        (DatabaseManager.persistentOutcome false false true true)).results.map (fun x => x.branch)
      = DatabaseManager.branchOrder ∧
    ∀ b ∈ DatabaseManager.branchOrder,
      DatabaseManager.attemptCount
          (DatabaseManager.queryAllBranches
            (DatabaseManager.persistentOutcome false false true true)).calls b
        = if DatabaseManager.persistentOutcome false false true true b 1 then 1 else 3 :=
  c4_retry_attempt_bound false false true true

/-- C5 counter-evidence: in the partial-recovery environment both PMB and
PTA fail the first pass, yet retry round 1 re-executes only PMB — when the
PMB retry succeeds the splice of failedBranches during the for..of loop
skips PTA, which is retried only in round 2 after the 1000ms delay, even
though round 1 was preceded by its 500ms backoff. -/
theorem c5_round_one_skips_next_failed_branch :
    DatabaseManager.outcomePartialRecovery "PMB" 1 = false ∧
    DatabaseManager.outcomePartialRecovery "PTA" 1 = false ∧
    ((DatabaseManager.queryAllBranches DatabaseManager.outcomePartialRecovery).calls.filter
        (fun e => e.1 == 0)).map (fun e => e.2) = DatabaseManager.branchOrder ∧
    ((DatabaseManager.queryAllBranches DatabaseManager.outcomePartialRecovery).calls.filter
        (fun e => e.1 == 1)).map (fun e => e.2) = ["PMB"] ∧
    ((DatabaseManager.queryAllBranches DatabaseManager.outcomePartialRecovery).calls.filter
        (fun e => e.1 == 2)).map (fun e => e.2) = ["PTA"] ∧
    (DatabaseManager.queryAllBranches DatabaseManager.outcomePartialRecovery).delays
      = [500, 1000] := by
  decide

/-- C6: a processed record carries the branch extracted from its cost-code
prefix when one is recognized (falling back to the fetched-from branch
otherwise) while sourceDatabase records the fetched-from branch; since the
permission filter restricts on the branch field, a user restricted to
branch X keeps a record fetched anywhere whose code carries the X prefix
and loses a record fetched from X whose code carries another recognized
prefix. -/
theorem c6_owning_branch_attribution
    (src : String) (rr : DataService.RawRecord) (c : String) (p : PRecord)
    (u : User) (X : String)
    (hc : rr.costCode = some c)
    (hp : DataService.processRecord src rr = Except.ok p)
    (hu : u.branch = some X) (hX1 : X ≠ "ALL") (hX2 : X ≠ "")
    (hgr : u.assignedGroups = none) (hac : u.assignedCostCodes = none) :
    p.sourceDatabase = src ∧
    p.branch = (CostCodeService.extractBranchFromCode c).getD src ∧
    (CostCodeService.extractBranchFromCode c = some X →
      filterDataByPermissions [p] u = [p]) ∧
    (∀ Z, CostCodeService.extractBranchFromCode c = some Z → Z ≠ X →
      filterDataByPermissions [p] u = []) := by
  simp only [DataService.processRecord, hc, Except.ok.injEq] at hp
  subst hp
  refine ⟨rfl, rfl, ?_, ?_⟩
  · intro hex
    rw [filter_no_restrictions _ _ hgr hac]
    simp [branchRestrict, hu, bne_iff_ne, hX1, hX2, hex]
  · intro Z hz hne
    rw [filter_no_restrictions _ _ hgr hac]
    simp [branchRestrict, hu, bne_iff_ne, hX1, hX2, hz, hne]

/-- Witness for C6: a row fetched from PTA whose code is PMB-MNT-001 is
attributed to PMB and retained for a PMB-restricted user. -/
theorem c6_owning_branch_attribution_witness :
    ((⟨some "PMB-MNT-001", some "Electrical"⟩ : DataService.RawRecord).costCode
        = some "PMB-MNT-001" ∧
      DataService.processRecord "PTA" ⟨some "PMB-MNT-001", some "Electrical"⟩
        = Except.ok ⟨some "PMB-MNT-001", some "Electrical", "PMB", "Pietermaritzburg",
            "PTA", "Electrical", "Completed"⟩ ∧
      (⟨"User", some "PMB", none, none⟩ : User).branch = some "PMB" ∧
      ("PMB" : String) ≠ "ALL" ∧ ("PMB" : String) ≠ "") ∧
    ((⟨some "PMB-MNT-001", some "Electrical", "PMB", "Pietermaritzburg",
        "PTA", "Electrical", "Completed"⟩ : PRecord).sourceDatabase = "PTA" ∧
     (⟨some "PMB-MNT-001", some "Electrical", "PMB", "Pietermaritzburg",
        "PTA", "Electrical", "Completed"⟩ : PRecord).branch
        = (CostCodeService.extractBranchFromCode "PMB-MNT-001").getD "PTA" ∧
     (CostCodeService.extractBranchFromCode "PMB-MNT-001" = some "PMB" →
       filterDataByPermissions
         [⟨some "PMB-MNT-001", some "Electrical", "PMB", "Pietermaritzburg",
           "PTA", "Electrical", "Completed"⟩]
         ⟨"User", some "PMB", none, none⟩
         = [⟨some "PMB-MNT-001", some "Electrical", "PMB", "Pietermaritzburg",
             "PTA", "Electrical", "Completed"⟩]) ∧
     (∀ Z, CostCodeService.extractBranchFromCode "PMB-MNT-001" = some Z → Z ≠ "PMB" →
       filterDataByPermissions
         [⟨some "PMB-MNT-001", some "Electrical", "PMB", "Pietermaritzburg",
           "PTA", "Electrical", "Completed"⟩]
         ⟨"User", some "PMB", none, none⟩ = [])) :=
  ⟨⟨rfl, rfl, rfl, by decide, by decide⟩,
   c6_owning_branch_attribution "PTA" ⟨some "PMB-MNT-001", some "Electrical"⟩
     "PMB-MNT-001" _ ⟨"User", some "PMB", none, none⟩ "PMB"
     rfl rfl rfl (by decide) (by decide) rfl rfl⟩

/-- C7 counter-evidence: a successful branch envelope holding one row with
a missing (null) cost code makes record processing throw a TypeError,
aborting the whole call instead of keeping the row with a sentinel; a row
with a missing group, by contrast, is kept with the Uncategorized
sentinel. -/
theorem c7_missing_cost_code_aborts_processing :
    DataService.processRecords
        [⟨"PMB", true, [⟨none, some "Electrical"⟩]⟩]
      = Except.error "TypeError" ∧
    DataService.processRecords
        [⟨"PMB", true, [⟨some "PMB-MNT-001", none⟩]⟩]
      = Except.ok [⟨some "PMB-MNT-001", none, "PMB", "Pietermaritzburg", "PMB",
          "Uncategorized", "Completed"⟩] :=
  ⟨rfl, rfl⟩

/-- C8 counter-evidence: the success path of executeBranchQuery closes its
isolated connection, but when the query throws after a successful connect
the catch block returns the failure envelope with the connection still
open — there is no finally clause. -/
theorem c8_connection_left_open_on_query_failure :
    (DatabaseManager.executeBranchQueryConn "PMB" true true).2
      = ⟨true, true⟩ ∧
    (DatabaseManager.executeBranchQueryConn "PMB" true false).1.success = false ∧
    (DatabaseManager.executeBranchQueryConn "PMB" true false).2.opened = true ∧
    (DatabaseManager.executeBranchQueryConn "PMB" true false).2.closed = false := by
  decide
